import Mathlib

/-!
Verification of the similarity-weighted grouping core of `app.py`
(`normalize_field`, `compute_similarity_ext`, `create_groups_ext`).

Modelling conventions:
* Python floats are modelled as `ℚ`: every arithmetic operation performed by
  the core (sums, products and divisions of small integer-derived values) is
  exact, and every property checked here is order/value-based.
* A dynamic profile field (which may arrive as `None`, a native list, a string,
  or another scalar) is modelled by `FieldVal`.  The outcome of the external
  call `json.loads` on a string field is carried as data (`asJsonList`): it is
  `some l` when the string parses as a JSON list whose elements stringify to
  `l`, and `none` both when parsing raises and when the parsed value is not a
  list — in `normalize_field` those two paths produce the same result `{x}`.
* `create_groups_ext` in the source reads its profiles from a database table
  keyed by `id` (so ids are distinct) and writes the groups back; the pure
  core modelled here takes the snapshot list `students` and returns the list
  of groups.  The early `return` on an empty snapshot becomes `[]`.
* `create_groups_checked` additionally models the one exception the sliced
  core can raise: Python's `range(0, n, 0)` (`group_size = 0`) raises
  `ValueError`; no other statement of the core can raise.
-/

/-- A dynamically typed profile field as it can arrive from the store. -/
inductive FieldVal where
  | vnone : FieldVal
  | vlist : List String → FieldVal
  | vstr : String → Option (List String) → FieldVal
  deriving DecidableEq, Repr

/-- Python truthiness of a `FieldVal` (`if not x`): `None`, `[]` and `""` are
falsy; a non-empty list or string is truthy. -/
def FieldVal.falsy : FieldVal → Bool
  | .vnone => true
  | .vlist l => l.isEmpty
  | .vstr s _ => s = ""

/-- `normalize_field` from `app.py`: normalize a hobby/subjects/goals field
into a set of strings.  Falsy input gives `∅`; a list gives the set of its
(stringified) elements; a string that parses as a JSON list gives the set of
the parsed elements, and otherwise the singleton of the raw string. -/
def normalize_field : FieldVal → Finset String
  | .vnone => ∅
  | .vlist l => l.toFinset
  | .vstr s p =>
    if s = "" then ∅
    else
      match p with
      | some l => l.toFinset
      | none => {s}

/-- A participant profile, the columns selected by `create_groups_ext`. -/
structure Profile where
  id : String
  approccio : Option String
  hobby : FieldVal
  materie_fatte : FieldVal
  materie_dafare : FieldVal
  obiettivi : FieldVal
  future_role : Option String
  deriving DecidableEq, Repr

/-- Python truthiness of a nullable categorical field (`p.get(k)`):
missing/`None` and `""` are falsy. -/
def truthy : Option String → Bool
  | none => false
  | some s => s ≠ ""

/-- The weight dictionary; `weights.get(k, 0)` is modelled by a total record,
a missing key being weight `0`. -/
structure Weights where
  hobby : ℚ
  approccio : ℚ
  materie : ℚ
  obiettivi : ℚ
  future_role : ℚ
  deriving DecidableEq, Repr

/-- Jaccard index `len(A & B) / len(A | B)` as written in the source (at every
call site the union is non-empty, see `compute_similarity_checked`). -/
def jaccard (A B : Finset String) : ℚ :=
  ((A ∩ B).card : ℚ) / ((A ∪ B).card : ℚ)

/-- The subjects dimension of a profile: `materie_fatte ∪ materie_dafare`. -/
def subjects (p : Profile) : Finset String :=
  normalize_field p.materie_fatte ∪ normalize_field p.materie_dafare

/-- `compute_similarity_ext` from `app.py`: weighted sum of the five category
sub-scores.  Each `score += ...` statement guarded by an `if` becomes an
`if _ then _ else 0` summand, accumulated left-to-right from `0.0`. -/
def compute_similarity_ext (p1 p2 : Profile) (w : Weights) : ℚ :=
  0
  + (if (normalize_field p1.hobby).Nonempty ∨ (normalize_field p2.hobby).Nonempty then
      w.hobby * jaccard (normalize_field p1.hobby) (normalize_field p2.hobby)
    else 0)
  + (if truthy p1.approccio ∧ truthy p2.approccio then
      w.approccio * (if p1.approccio = p2.approccio then 1 else 0)
    else 0)
  + (if (subjects p1).Nonempty ∨ (subjects p2).Nonempty then
      w.materie * jaccard (subjects p1) (subjects p2)
    else 0)
  + (if (normalize_field p1.obiettivi).Nonempty ∨ (normalize_field p2.obiettivi).Nonempty then
      w.obiettivi * jaccard (normalize_field p1.obiettivi) (normalize_field p2.obiettivi)
    else 0)
  + (if truthy p1.future_role ∧ truthy p2.future_role then
      w.future_role * (if p1.future_role = p2.future_role then 1 else 0)
    else 0)

/-- `len(A & B) / len(A | B)` with the division checked: `none` exactly when
the denominator is zero. -/
def jaccardChecked (A B : Finset String) : Option ℚ :=
  if (A ∪ B).card = 0 then none
  else some (((A ∩ B).card : ℚ) / ((A ∪ B).card : ℚ))

/-- One guarded set-category summand of the similarity with its division
checked. -/
def guardedTerm (wt : ℚ) (A B : Finset String) : Option ℚ :=
  if A.Nonempty ∨ B.Nonempty then
    match jaccardChecked A B with
    | none => none
    | some j => some (wt * j)
  else some 0

/-- `compute_similarity_ext` with every division checked: returns `none` if
any executed Jaccard division has a zero denominator. -/
def compute_similarity_checked (p1 p2 : Profile) (w : Weights) : Option ℚ :=
  match guardedTerm w.hobby (normalize_field p1.hobby) (normalize_field p2.hobby) with
  | none => none
  | some t1 =>
    match guardedTerm w.materie (subjects p1) (subjects p2) with
    | none => none
    | some t3 =>
      match guardedTerm w.obiettivi (normalize_field p1.obiettivi)
          (normalize_field p2.obiettivi) with
      | none => none
      | some t4 =>
        some (0 + t1
          + (if truthy p1.approccio ∧ truthy p2.approccio then
              w.approccio * (if p1.approccio = p2.approccio then 1 else 0)
            else 0)
          + t3 + t4
          + (if truthy p1.future_role ∧ truthy p2.future_role then
              w.future_role * (if p1.future_role = p2.future_role then 1 else 0)
            else 0))

/-- The average-similarity score of `p` against all other students
(`avg_score[p["id"]]` in the source): mean of the similarities to every
student with a different id, `0.0` when there is none. -/
def avg_score (students : List Profile) (w : Weights) (p : Profile) : ℚ :=
  let scores := (students.filter (fun q => q.id ≠ p.id)).map
    (fun q => compute_similarity_ext p q w)
  if scores.length = 0 then 0 else scores.sum / (scores.length : ℚ)

/-- Insert `x` into an already (descending-)sorted list, after every element
with a strictly larger key: ties keep the earlier element first. -/
def insertDesc {α : Type} (key : α → ℚ) (x : α) : List α → List α
  | [] => [x]
  | y :: ys => if key x < key y then y :: insertDesc key x ys else x :: y :: ys

/-- `students.sort(key=..., reverse=True)`: a stable descending sort by key
(Python's sort is stable; ties preserve input order). -/
def sortDesc {α : Type} (key : α → ℚ) : List α → List α
  | [] => []
  | x :: xs => insertDesc key x (sortDesc key xs)

/-- The consecutive slices `l[i:i+gs]` for `i in range(0, len(l), gs)`.
(For `gs = 0` Python's `range` raises instead; see
`create_groups_checked`.) -/
def chunksOf {α : Type} (gs : ℕ) : List α → List (List α)
  | [] => []
  | x :: xs => ((x :: xs).take gs) :: chunksOf gs (xs.drop (gs - 1))
termination_by l => l.length
decreasing_by
  simp only [List.length_drop, List.length_cons]
  omega

/-- The serpentine flattening loop: each chunk is appended to `bucketed`,
every other chunk (odd chunk index) reversed first.  The `Bool` argument says
whether the next chunk's index is odd. -/
def serpentine {α : Type} : Bool → List (List α) → List α
  | _, [] => []
  | b, c :: cs => (if b then c.reverse else c) ++ serpentine (!b) cs

/-- The chunk lists produced by slicing: every chunk before the last has
length exactly `gs`, the last has length between 1 and `gs`. -/
inductive GoodChunks {α : Type} (gs : ℕ) : List (List α) → Prop where
  | nil : GoodChunks gs []
  | single (c : List α) : 1 ≤ c.length → c.length ≤ gs → GoodChunks gs [c]
  | cons (c : List α) (cs : List (List α)) : c.length = gs → GoodChunks gs cs →
      GoodChunks gs (c :: cs)

/-- Reverse every other chunk (odd chunk indices, the `Bool` saying whether
the next index is odd) without re-slicing: the specification-side description
of the serpentine step, to be compared with re-slicing the serpentine
flattening. -/
def alternateReverse {α : Type} : Bool → List (List α) → List (List α)
  | _, [] => []
  | b, c :: cs => (if b then c.reverse else c) :: alternateReverse (!b) cs

/-- The pure core of `create_groups_ext` from `app.py`: sort the snapshot by
descending average similarity, serpentine-flatten the `group_size`-slices,
and re-slice at the same boundaries.  An empty snapshot short-circuits (the
source returns early before forming any group). -/
def create_groups_ext (students : List Profile) (group_size : ℕ) (w : Weights) :
    List (List Profile) :=
  match students with
  | [] => []
  | _ :: _ =>
    let sorted := sortDesc (avg_score students w) students
    let bucketed := serpentine false (chunksOf group_size sorted)
    chunksOf group_size bucketed

/-- `create_groups_ext` with its one possible exception made explicit:
`group_size = 0` reaches `range(0, n, 0)`, which raises `ValueError` (only
when the snapshot is non-empty — an empty snapshot returns before the loop).
No validation of `group_size` or of the weights is performed. -/
def create_groups_checked (students : List Profile) (group_size : ℕ) (w : Weights) :
    Except String (List (List Profile)) :=
  match students with
  | [] => .ok []
  | _ :: _ =>
    if group_size = 0 then .error "ValueError: range() arg 3 must not be zero"
    else .ok (create_groups_ext students group_size w)

/-! ### Concrete example inputs -/

/-- A profile with the given id and every other field empty/null. -/
def exProfile (i : String) : Profile :=
  { id := i, approccio := none, hobby := .vnone, materie_fatte := .vnone,
    materie_dafare := .vnone, obiettivi := .vnone, future_role := none }

/-- The all-zero weight configuration. -/
def exW0 : Weights :=
  { hobby := 0, approccio := 0, materie := 0, obiettivi := 0, future_role := 0 }

/-- Weight 1 on hobbies and goals, 0 elsewhere. -/
def exWHO : Weights :=
  { hobby := 1, approccio := 0, materie := 0, obiettivi := 1, future_role := 0 }

/-- A weight configuration with a negative hobby weight. -/
def exWneg : Weights :=
  { hobby := -1, approccio := 0, materie := 0, obiettivi := 0, future_role := 0 }

/-- Five profiles with distinct ids and empty fields. -/
def exPs5 : List Profile :=
  [exProfile "a", exProfile "b", exProfile "c", exProfile "d", exProfile "e"]

/-- Two profiles with distinct ids and empty fields. -/
def exPair : List Profile := [exProfile "a", exProfile "b"]

/-- A profile with empty hobby sets but a non-empty goals set. -/
def exPg1 : Profile := { exProfile "g1" with obiettivi := .vlist ["math"] }

/-- A second profile with empty hobby sets but a non-empty goals set. -/
def exPg2 : Profile := { exProfile "g2" with obiettivi := .vlist ["sport"] }

/-! ### Helper lemmas -/

theorem jaccard_comm (A B : Finset String) : jaccard A B = jaccard B A := by
  rw [jaccard, jaccard, Finset.inter_comm, Finset.union_comm]

theorem setTerm_comm (wt : ℚ) (A B : Finset String) :
    (if A.Nonempty ∨ B.Nonempty then wt * jaccard A B else 0)
      = (if B.Nonempty ∨ A.Nonempty then wt * jaccard B A else 0) := by
  rw [jaccard_comm]
  exact if_congr or_comm rfl rfl

theorem catTerm_comm (wt : ℚ) (a b : Option String) :
    (if truthy a ∧ truthy b then wt * (if a = b then 1 else 0) else 0)
      = (if truthy b ∧ truthy a then wt * (if b = a then 1 else 0) else 0) :=
  if_congr and_comm (congrArg (wt * ·) (if_congr eq_comm rfl rfl)) rfl

theorem guardedTerm_eq (wt : ℚ) (A B : Finset String) :
    guardedTerm wt A B
      = some (if A.Nonempty ∨ B.Nonempty then wt * jaccard A B else 0) := by
  rw [guardedTerm]
  by_cases h : A.Nonempty ∨ B.Nonempty
  · have hu : (A ∪ B).Nonempty := h.elim Finset.Nonempty.inl Finset.Nonempty.inr
    rw [if_pos h, if_pos h, jaccardChecked, if_neg (Finset.card_ne_zero.mpr hu)]
    rfl
  · rw [if_neg h, if_neg h]

/-! ### Claims -/

/-- C6: for all profiles `a`, `b` and every weight configuration `w`,
`compute_similarity_ext a b w = compute_similarity_ext b a w`: the similarity
function is symmetric in its two profile arguments. -/
theorem compute_similarity_ext_comm (p1 p2 : Profile) (w : Weights) :
    compute_similarity_ext p1 p2 w = compute_similarity_ext p2 p1 w := by
  unfold compute_similarity_ext
  rw [setTerm_comm w.hobby, catTerm_comm w.approccio, setTerm_comm w.materie,
    setTerm_comm w.obiettivi, catTerm_comm w.future_role]

/-- C8: the similarity computation is total — with every Jaccard division
checked for a zero denominator, it always returns `some` of the unchecked
value, for all profiles (including ones whose set-valued fields are all
empty), because each division is guarded by non-emptiness of one of the two
sets, which forces the union (the denominator) to be non-empty. -/
theorem compute_similarity_checked_total (p1 p2 : Profile) (w : Weights) :
    compute_similarity_checked p1 p2 w = some (compute_similarity_ext p1 p2 w) := by
  rw [compute_similarity_checked, guardedTerm_eq, guardedTerm_eq, guardedTerm_eq]
  rfl

/-- C7: for an empty profile list, any `group_size ≥ 2` and any weights, the
grouping returns an empty list of groups and raises no error. -/
theorem create_groups_checked_empty (gs : ℕ) (w : Weights) (_h : 2 ≤ gs) :
    create_groups_checked [] gs w = .ok [] := rfl

/-- Witness for C7 at `group_size = 4`. -/
theorem create_groups_checked_empty_witness :
    2 ≤ 4 ∧ create_groups_checked [] 4 exW0 = .ok [] :=
  ⟨by norm_num, create_groups_checked_empty 4 exW0 (by norm_num)⟩

/-- C4 counterexample: the string `"oops"` does not parse as a JSON list, and
`normalize_field` maps it to the singleton `{"oops"}`, not to the empty set as
the claim states. -/
theorem normalize_field_unparsable_counterexample :
    normalize_field (.vstr "oops" none) = {"oops"}
      ∧ normalize_field (.vstr "oops" none) ≠ (∅ : Finset String) := by
  constructor
  · rfl
  · decide

/-- C4 amended: a non-empty string field that does not parse as a JSON list is
normalized fail-soft to the singleton set containing the raw string (no parse
exception propagates into similarity or grouping), not to the empty set. -/
theorem normalize_field_unparsable (s : String) (hs : s ≠ "") :
    normalize_field (.vstr s none) = {s} := by
  simp [normalize_field, hs]

/-- Witness for the amended C4 at `s = "oops"`. -/
theorem normalize_field_unparsable_witness :
    "oops" ≠ "" ∧ normalize_field (.vstr "oops" none) = {"oops"} :=
  ⟨by decide, normalize_field_unparsable "oops" (by decide)⟩

/-- C2 counterexample: two profiles whose hobby and goals fields are empty,
with weight 1 on hobbies and goals: the claim predicts that each empty-empty
category scores `1.0` and its full weight is added (total `2`), but the code
skips both categories and returns `0`. -/
theorem compute_similarity_ext_empty_counterexample :
    compute_similarity_ext (exProfile "a") (exProfile "b") exWHO = 0
      ∧ compute_similarity_ext (exProfile "a") (exProfile "b") exWHO
          ≠ exWHO.hobby * 1 + exWHO.obiettivi * 1 := by
  have h : compute_similarity_ext (exProfile "a") (exProfile "b") exWHO = 0 := by
    simp [compute_similarity_ext, exProfile, normalize_field, subjects, truthy]
  refine ⟨h, ?_⟩
  rw [h]
  simp [exWHO]
  norm_num

/-- C2 amended: a set-valued category among hobbies and goals whose two
normalized sets are both empty is skipped entirely, per category: it
contributes `0` to the similarity and its weight is never added — the score
does not depend on that category's weight, whatever the other category
holds. -/
theorem compute_similarity_ext_empty_skipped (p1 p2 : Profile) (w : Weights) :
    ((normalize_field p1.hobby = ∅ ∧ normalize_field p2.hobby = ∅) →
      compute_similarity_ext p1 p2 w
        = compute_similarity_ext p1 p2 { w with hobby := 0 })
    ∧ ((normalize_field p1.obiettivi = ∅ ∧ normalize_field p2.obiettivi = ∅) →
      compute_similarity_ext p1 p2 w
        = compute_similarity_ext p1 p2 { w with obiettivi := 0 }) := by
  constructor
  · rintro ⟨hh1, hh2⟩
    simp [compute_similarity_ext, hh1, hh2]
  · rintro ⟨ho1, ho2⟩
    simp [compute_similarity_ext, ho1, ho2]

/-- Witness for the amended C2 at two profiles whose hobby sets are empty but
whose goals sets are non-empty: the score is independent of the hobby
weight. -/
theorem compute_similarity_ext_empty_skipped_witness :
    (normalize_field exPg1.hobby = ∅ ∧ normalize_field exPg2.hobby = ∅)
      ∧ compute_similarity_ext exPg1 exPg2 exWHO
          = compute_similarity_ext exPg1 exPg2 { exWHO with hobby := 0 } :=
  ⟨⟨by decide, by decide⟩,
    (compute_similarity_ext_empty_skipped exPg1 exPg2 exWHO).1 ⟨by decide, by decide⟩⟩

/-! ### List machinery lemmas -/

theorem chunksOf_nil {α : Type} (gs : ℕ) : chunksOf gs ([] : List α) = [] := by
  simp [chunksOf]

theorem chunksOf_eq_cons {α : Type} {gs : ℕ} (h : 1 ≤ gs) {l : List α} (hne : l ≠ []) :
    chunksOf gs l = (l.take gs) :: chunksOf gs (l.drop gs) := by
  obtain ⟨x, xs, rfl⟩ := List.exists_cons_of_ne_nil hne
  obtain ⟨n, rfl⟩ : ∃ n, gs = n + 1 := ⟨gs - 1, by omega⟩
  rw [chunksOf, List.drop_succ_cons]
  simp

theorem chunksOf_of_le {α : Type} {gs : ℕ} {l : List α} (h1 : l ≠ []) (h2 : l.length ≤ gs) :
    chunksOf gs l = [l] := by
  have hg : 1 ≤ gs := by
    obtain ⟨x, xs, rfl⟩ := List.exists_cons_of_ne_nil h1
    simp only [List.length_cons] at h2
    omega
  rw [chunksOf_eq_cons hg h1, List.take_of_length_le h2, List.drop_eq_nil_of_le h2, chunksOf_nil]

theorem chunksOf_append {α : Type} {gs : ℕ} (h : 1 ≤ gs) {m : List α} (rest : List α)
    (hm : m.length = gs) : chunksOf gs (m ++ rest) = m :: chunksOf gs rest := by
  have hmne : m ≠ [] := by
    intro h0
    rw [h0] at hm
    simp at hm
    omega
  have hne : m ++ rest ≠ [] := fun h0 => hmne (List.append_eq_nil.mp h0).1
  rw [chunksOf_eq_cons h hne, List.take_left' hm, List.drop_left' hm]

theorem flatten_chunksOf {α : Type} {gs : ℕ} (h : 1 ≤ gs) :
    ∀ l : List α, (chunksOf gs l).flatten = l
  | [] => by simp [chunksOf_nil]
  | x :: xs => by
    rw [chunksOf_eq_cons h (by simp), List.flatten_cons,
      flatten_chunksOf h ((x :: xs).drop gs), List.take_append_drop]
termination_by l => l.length
decreasing_by
  simp only [List.length_drop, List.length_cons]
  omega

theorem length_of_mem_chunksOf {α : Type} {gs : ℕ} (h : 1 ≤ gs) :
    ∀ (l c : List α), c ∈ chunksOf gs l → 1 ≤ c.length ∧ c.length ≤ gs
  | [], c, hc => by rw [chunksOf_nil] at hc; exact absurd hc (List.not_mem_nil c)
  | x :: xs, c, hc => by
    rw [chunksOf_eq_cons h (by simp)] at hc
    rcases List.mem_cons.mp hc with hceq | hmem
    · subst hceq
      simp only [List.length_take, List.length_cons]
      omega
    · exact length_of_mem_chunksOf h ((x :: xs).drop gs) c hmem
termination_by l _ _ => l.length
decreasing_by
  simp only [List.length_drop, List.length_cons]
  omega

theorem exists_chunk_mod {α : Type} {gs : ℕ} (h : 1 ≤ gs) :
    ∀ l : List α, l ≠ [] → l.length % gs ≠ 0 →
      ∃ c ∈ chunksOf gs l, c.length = l.length % gs
  | [], hne, _ => absurd rfl hne
  | x :: xs, _, hmod => by
    by_cases hle : (x :: xs).length ≤ gs
    · have hlt : (x :: xs).length < gs := by
        rcases lt_or_eq_of_le hle with hlt | heq
        · exact hlt
        · exact absurd (by rw [heq, Nat.mod_self]) hmod
      refine ⟨x :: xs, ?_, (Nat.mod_eq_of_lt hlt).symm⟩
      rw [chunksOf_of_le (by simp) hle]
      simp
    · push_neg at hle
      have hd : (x :: xs).drop gs ≠ [] := by
        apply List.ne_nil_of_length_pos
        simp only [List.length_drop]
        omega
      have hsplit : (x :: xs).length = ((x :: xs).length - gs) + gs := by omega
      have hmodd : ((x :: xs).drop gs).length % gs ≠ 0 := by
        rw [List.length_drop]
        intro h0
        apply hmod
        rw [hsplit, Nat.add_mod_right]
        exact h0
      obtain ⟨c, hc, hclen⟩ := exists_chunk_mod h ((x :: xs).drop gs) hd hmodd
      refine ⟨c, ?_, ?_⟩
      · rw [chunksOf_eq_cons h (by simp)]
        exact List.mem_cons_of_mem _ hc
      · rw [hclen, List.length_drop]
        conv_rhs => rw [hsplit, Nat.add_mod_right]
termination_by l => l.length
decreasing_by
  simp only [List.length_drop, List.length_cons]
  omega

theorem goodChunks_chunksOf {α : Type} {gs : ℕ} (h : 1 ≤ gs) :
    ∀ l : List α, GoodChunks gs (chunksOf gs l)
  | [] => by rw [chunksOf_nil]; exact .nil
  | x :: xs => by
    by_cases hle : (x :: xs).length ≤ gs
    · rw [chunksOf_of_le (by simp) hle]
      exact .single _ (by simp) hle
    · push_neg at hle
      rw [chunksOf_eq_cons h (by simp)]
      exact .cons _ _ (by simp only [List.length_take, List.length_cons] at hle ⊢; omega)
        (goodChunks_chunksOf h ((x :: xs).drop gs))
termination_by l => l.length
decreasing_by
  simp only [List.length_drop, List.length_cons]
  omega

theorem serpentine_perm {α : Type} (b : Bool) (cs : List (List α)) :
    (serpentine b cs).Perm cs.flatten := by
  induction cs generalizing b with
  | nil => simp [serpentine]
  | cons c cs ih =>
    rw [serpentine, List.flatten_cons]
    cases b with
    | false => exact (List.Perm.refl c).append (ih true)
    | true => exact (List.reverse_perm c).append (ih false)

theorem insertDesc_perm {α : Type} (key : α → ℚ) (x : α) (l : List α) :
    (insertDesc key x l).Perm (x :: l) := by
  induction l with
  | nil => simp [insertDesc]
  | cons y ys ih =>
    rw [insertDesc]
    by_cases hxy : key x < key y
    · rw [if_pos hxy]
      exact (ih.cons y).trans (List.Perm.swap x y ys)
    · rw [if_neg hxy]

theorem sortDesc_perm {α : Type} (key : α → ℚ) (l : List α) : (sortDesc key l).Perm l := by
  induction l with
  | nil => simp [sortDesc]
  | cons x xs ih => exact (insertDesc_perm key x (sortDesc key xs)).trans (ih.cons x)

theorem chunksOf_serpentine {α : Type} {gs : ℕ} (h : 1 ≤ gs) {cs : List (List α)}
    (hg : GoodChunks gs cs) : ∀ b, chunksOf gs (serpentine b cs) = alternateReverse b cs := by
  induction hg with
  | nil =>
    intro b
    rw [serpentine, alternateReverse, chunksOf_nil]
  | single c h1 h2 =>
    intro b
    have hd : (if b then c.reverse else c).length = c.length := by cases b <;> simp
    rw [serpentine, serpentine, List.append_nil, alternateReverse, alternateReverse,
      chunksOf_of_le (List.ne_nil_of_length_pos (by omega)) (by omega)]
  | cons c cs hc hcs ih =>
    intro b
    have hd : (if b then c.reverse else c).length = gs := by cases b <;> simp [hc]
    rw [serpentine, chunksOf_append h _ hd, ih (!b), alternateReverse]

theorem filter_insertDesc {α : Type} (key : α → ℚ) (x : α) (k : ℚ) (l : List α) :
    (insertDesc key x l).filter (fun y => decide (key y = k))
      = if key x = k then x :: l.filter (fun y => decide (key y = k))
        else l.filter (fun y => decide (key y = k)) := by
  induction l with
  | nil =>
    rw [insertDesc]
    by_cases hx : key x = k <;> simp [hx]
  | cons y ys ih =>
    rw [insertDesc]
    by_cases hxy : key x < key y
    · rw [if_pos hxy]
      by_cases hy : key y = k
      · have hx : ¬ key x = k := by
          intro he
          rw [he, hy] at hxy
          exact lt_irrefl k hxy
        simp [List.filter_cons, hy, hx, ih]
      · simp [List.filter_cons, hy, ih]
    · rw [if_neg hxy]
      by_cases hx : key x = k <;> by_cases hy : key y = k <;>
        simp [List.filter_cons, hx, hy]

theorem filter_sortDesc {α : Type} (key : α → ℚ) (l : List α) (k : ℚ) :
    (sortDesc key l).filter (fun y => decide (key y = k))
      = l.filter (fun y => decide (key y = k)) := by
  induction l with
  | nil => simp [sortDesc]
  | cons x xs ih =>
    rw [sortDesc, filter_insertDesc]
    by_cases hx : key x = k <;> simp [List.filter_cons, hx, ih]

theorem create_groups_ext_nil (gs : ℕ) (w : Weights) :
    create_groups_ext [] gs w = [] := rfl

theorem create_groups_ext_cons (x : Profile) (xs : List Profile) (gs : ℕ) (w : Weights) :
    create_groups_ext (x :: xs) gs w
      = chunksOf gs (serpentine false
          (chunksOf gs (sortDesc (avg_score (x :: xs) w) (x :: xs)))) := rfl

theorem compute_similarity_ext_w0 (p q : Profile) : compute_similarity_ext p q exW0 = 0 := by
  simp [compute_similarity_ext, exW0]

theorem avg_score_w0 (l : List Profile) (p : Profile) : avg_score l exW0 p = 0 := by
  unfold avg_score
  simp [compute_similarity_ext_w0]

theorem countP_eq_zero_of_count_flatten {G : List (List Profile)} {x : String}
    (h : (G.flatten.map Profile.id).count x = 0) :
    G.countP (fun g => decide (x ∈ g.map Profile.id)) = 0 := by
  induction G with
  | nil => simp
  | cons g G ih =>
    rw [List.flatten_cons, List.map_append, List.count_append] at h
    have hg : (g.map Profile.id).count x = 0 := by omega
    have hG : (G.flatten.map Profile.id).count x = 0 := by omega
    rw [List.countP_cons, ih hG]
    simp [List.count_eq_zero.mp hg]

theorem countP_eq_one_of_count_flatten {G : List (List Profile)} {x : String}
    (h : (G.flatten.map Profile.id).count x = 1) :
    G.countP (fun g => decide (x ∈ g.map Profile.id)) = 1 := by
  induction G with
  | nil => simp at h
  | cons g G ih =>
    rw [List.flatten_cons, List.map_append, List.count_append] at h
    rw [List.countP_cons]
    by_cases hg : x ∈ g.map Profile.id
    · have hgpos : 0 < (g.map Profile.id).count x := List.count_pos_iff.mpr hg
      have hG : (G.flatten.map Profile.id).count x = 0 := by omega
      rw [countP_eq_zero_of_count_flatten hG]
      simp [hg]
    · have hg0 : (g.map Profile.id).count x = 0 := List.count_eq_zero.mpr hg
      have hG : (G.flatten.map Profile.id).count x = 1 := by omega
      rw [ih hG]
      simp [hg]

theorem map_multiset_alternateReverse (b : Bool) (cs : List (List Profile)) :
    (alternateReverse b cs).map (fun g => ((g.map Profile.id : List String) : Multiset String))
      = cs.map (fun g => ((g.map Profile.id : List String) : Multiset String)) := by
  induction cs generalizing b with
  | nil => rfl
  | cons c cs ih =>
    rw [alternateReverse, List.map_cons, List.map_cons, ih]
    congr 1
    cases b with
    | false => rfl
    | true =>
      show ((c.reverse.map Profile.id : List String) : Multiset String) = _
      rw [List.map_reverse]
      exact Multiset.coe_reverse _

/-- C1 counterexample: five profiles (distinct ids, empty fields) with
`group_size = 4` and zero weights yield groups of sizes `[4, 1]` — the final
single remaining profile is emitted as a standalone group of 1 instead of
being merged into the previous group. -/
theorem create_groups_ext_singleton_counterexample :
    (create_groups_ext exPs5 4 exW0).map List.length = [4, 1]
      ∧ ¬ (∀ g ∈ create_groups_ext exPs5 4 exW0, g.length ≠ 1) := by
  constructor
  · simp [create_groups_ext, exPs5, sortDesc, insertDesc, avg_score_w0, chunksOf, serpentine]
  · simp [create_groups_ext, exPs5, sortDesc, insertDesc, avg_score_w0, chunksOf, serpentine]

/-- C1 amended: the grouping never merges the remainder — whenever the profile
count leaves a remainder of 1 modulo `group_size` (and `group_size ≥ 2`), the
output contains a group with exactly 1 member; e.g. 5 profiles with
`group_size = 4` yield a group of 4 and a standalone group of 1. -/
theorem create_groups_ext_emits_singleton (students : List Profile) (gs : ℕ) (w : Weights)
    (hgs : 2 ≤ gs) (hmod : students.length % gs = 1) :
    ∃ g ∈ create_groups_ext students gs w, g.length = 1 := by
  have h1 : 1 ≤ gs := by omega
  cases students with
  | nil => simp at hmod
  | cons x xs =>
    rw [create_groups_ext_cons]
    have hlen : (serpentine false
        (chunksOf gs (sortDesc (avg_score (x :: xs) w) (x :: xs)))).length
          = (x :: xs).length := by
      rw [(serpentine_perm false _).length_eq, flatten_chunksOf h1,
        (sortDesc_perm _ _).length_eq]
    have hne : serpentine false
        (chunksOf gs (sortDesc (avg_score (x :: xs) w) (x :: xs))) ≠ [] := by
      apply List.ne_nil_of_length_pos
      rw [hlen]
      simp
    have hmodb : (serpentine false
        (chunksOf gs (sortDesc (avg_score (x :: xs) w) (x :: xs)))).length % gs ≠ 0 := by
      rw [hlen, hmod]
      omega
    obtain ⟨c, hc, hclen⟩ := exists_chunk_mod h1 _ hne hmodb
    exact ⟨c, hc, by rw [hclen, hlen, hmod]⟩

/-- Witness for the amended C1 at 5 profiles and `group_size = 4`. -/
theorem create_groups_ext_emits_singleton_witness :
    (2 ≤ 4 ∧ exPs5.length % 4 = 1)
      ∧ ∃ g ∈ create_groups_ext exPs5 4 exW0, g.length = 1 :=
  ⟨⟨by norm_num, by simp [exPs5]⟩,
    create_groups_ext_emits_singleton exPs5 4 exW0 (by norm_num) (by simp [exPs5])⟩

/-- C3 counterexample: `group_size = 1` together with a negative hobby weight
is accepted without any error — the grouping returns `ok` with two singleton
groups instead of raising a contract-violation error. -/
theorem create_groups_checked_accepts_invalid_counterexample :
    create_groups_checked exPair 1 exWneg = .ok [[exProfile "a"], [exProfile "b"]] := by
  have ha : avg_score [exProfile "a", exProfile "b"] exWneg (exProfile "a") = 0 := by
    simp [avg_score, exProfile, compute_similarity_ext, normalize_field, subjects, truthy,
      exWneg]
  have hb : avg_score [exProfile "a", exProfile "b"] exWneg (exProfile "b") = 0 := by
    simp [avg_score, exProfile, compute_similarity_ext, normalize_field, subjects, truthy,
      exWneg]
  simp [exPair, create_groups_checked, create_groups_ext, sortDesc, insertDesc, ha, hb,
    chunksOf, serpentine]

/-- C3 amended: `create_groups_ext` performs no validation at all — for every
`group_size ≥ 1` (in particular `group_size = 1`) and every weight
configuration (including negative weights) it succeeds without error, and
`group_size = 1` produces only singleton groups. -/
theorem create_groups_checked_no_validation (students : List Profile) (gs : ℕ) (w : Weights)
    (hgs : 1 ≤ gs) :
    create_groups_checked students gs w = .ok (create_groups_ext students gs w)
      ∧ ∀ g ∈ create_groups_ext students 1 w, g.length = 1 := by
  constructor
  · cases students with
    | nil => rfl
    | cons x xs =>
      unfold create_groups_checked
      rw [if_neg (by omega : ¬ gs = 0)]
  · intro g hg
    cases students with
    | nil => rw [create_groups_ext_nil] at hg; exact absurd hg (List.not_mem_nil g)
    | cons x xs =>
      rw [create_groups_ext_cons] at hg
      have := length_of_mem_chunksOf (le_refl 1) _ g hg
      omega

/-- Witness for the amended C3 at two profiles, `group_size = 1` and a
negative weight. -/
theorem create_groups_checked_no_validation_witness :
    1 ≤ 1 ∧ (create_groups_checked exPair 1 exWneg = .ok (create_groups_ext exPair 1 exWneg)
      ∧ ∀ g ∈ create_groups_ext exPair 1 exWneg, g.length = 1) :=
  ⟨le_refl 1, create_groups_checked_no_validation exPair 1 exWneg (le_refl 1)⟩

/-- C5: for every profile list with distinct ids, `group_size ≥ 2` and any
weights, the output groups partition the input: the concatenation of the
groups is a permutation of the input list, and each input profile's id lies
in exactly one output group. -/
theorem create_groups_ext_partition (students : List Profile) (gs : ℕ) (w : Weights)
    (hgs : 2 ≤ gs) (hnd : (students.map Profile.id).Nodup) :
    (create_groups_ext students gs w).flatten.Perm students
      ∧ ∀ p ∈ students,
          (create_groups_ext students gs w).countP
            (fun g => decide (p.id ∈ g.map Profile.id)) = 1 := by
  have h1 : 1 ≤ gs := by omega
  have hperm : (create_groups_ext students gs w).flatten.Perm students := by
    cases students with
    | nil => rw [create_groups_ext_nil]; rfl
    | cons x xs =>
      rw [create_groups_ext_cons, flatten_chunksOf h1]
      have h2 := serpentine_perm false
        (chunksOf gs (sortDesc (avg_score (x :: xs) w) (x :: xs)))
      rw [flatten_chunksOf h1] at h2
      exact h2.trans (sortDesc_perm _ _)
  refine ⟨hperm, ?_⟩
  intro p hp
  have hcount : ((create_groups_ext students gs w).flatten.map Profile.id).count p.id = 1 := by
    rw [(hperm.map Profile.id).count_eq]
    exact List.count_eq_one_of_mem hnd (List.mem_map_of_mem Profile.id hp)
  exact countP_eq_one_of_count_flatten hcount

/-- Witness for C5 at five distinct-id profiles and `group_size = 4`. -/
theorem create_groups_ext_partition_witness :
    (2 ≤ 4 ∧ (exPs5.map Profile.id).Nodup)
      ∧ ((create_groups_ext exPs5 4 exW0).flatten.Perm exPs5
        ∧ ∀ p ∈ exPs5,
            (create_groups_ext exPs5 4 exW0).countP
              (fun g => decide (p.id ∈ g.map Profile.id)) = 1) :=
  ⟨⟨by norm_num, by decide⟩,
    create_groups_ext_partition exPs5 4 exW0 (by norm_num) (by decide)⟩

/-- C9: the grouping is fully deterministic — identical profile lists (same
elements, same order) with identical `group_size` and identical weights give
identical output groups — and the underlying descending sort by average
similarity is stable: for every key value, the elements holding that key keep
their input order (their filtered subsequence is unchanged by the sort). -/
theorem create_groups_ext_deterministic (ps1 ps2 : List Profile) (gs : ℕ) (w1 w2 : Weights)
    (hps : ps1 = ps2) (hw : w1 = w2) :
    create_groups_ext ps1 gs w1 = create_groups_ext ps2 gs w2
      ∧ ∀ (key : Profile → ℚ) (l : List Profile) (k : ℚ),
          (sortDesc key l).filter (fun x => decide (key x = k))
            = l.filter (fun x => decide (key x = k)) := by
  subst hps
  subst hw
  exact ⟨rfl, fun key l k => filter_sortDesc key l k⟩

/-- Witness for C9 at two identical runs on five profiles. -/
theorem create_groups_ext_deterministic_witness :
    create_groups_ext exPs5 4 exW0 = create_groups_ext exPs5 4 exW0 :=
  (create_groups_ext_deterministic exPs5 exPs5 4 exW0 exW0 rfl rfl).1

/-- C10: the serpentine step never changes group membership — for every
profile list and `group_size ≥ 2`, the multiset of member ids of each output
group equals that of the corresponding plain consecutive slice of the
similarity-sorted list (only within-group order can differ). -/
theorem create_groups_ext_serpentine_membership (students : List Profile) (gs : ℕ)
    (w : Weights) (hgs : 2 ≤ gs) :
    (create_groups_ext students gs w).map
        (fun g => ((g.map Profile.id : List String) : Multiset String))
      = (chunksOf gs (sortDesc (avg_score students w) students)).map
          (fun g => ((g.map Profile.id : List String) : Multiset String)) := by
  have h1 : 1 ≤ gs := by omega
  cases students with
  | nil => rw [create_groups_ext_nil, sortDesc, chunksOf_nil]
  | cons x xs =>
    rw [create_groups_ext_cons, chunksOf_serpentine h1 (goodChunks_chunksOf h1 _) false]
    exact map_multiset_alternateReverse false _

/-- Witness for C10 at five profiles and `group_size = 4`. -/
theorem create_groups_ext_serpentine_membership_witness :
    2 ≤ 4 ∧ (create_groups_ext exPs5 4 exW0).map
        (fun g => ((g.map Profile.id : List String) : Multiset String))
      = (chunksOf 4 (sortDesc (avg_score exPs5 exW0) exPs5)).map
          (fun g => ((g.map Profile.id : List String) : Multiset String)) :=
  ⟨by norm_num, create_groups_ext_serpentine_membership exPs5 4 exW0 (by norm_num)⟩
